import Mathlib

/-!
Shallow embedding of `src/attendance.py` (face-recognition attendance system).

Modelling conventions:
* The sqlite tables `People`, `Sessions`, `Attendance` become Lean lists of
  structures; `INTEGER PRIMARY KEY` autoincrement becomes `max id + 1`.
* Clock times of day (stored as `"HH:MM:SS"` strings and re-parsed with
  `strptime`) are modelled as seconds-of-day `Nat`; the `strptime` difference
  `(current_time - session_start).total_seconds()` is the `Int` difference of
  the two seconds-of-day values (it is negative across midnight, exactly as in
  the source, where both parses land on the same default date).
* Dates (`"YYYY-MM-DD"` strings) stay `String`; sqlite's `ORDER BY ... DESC`
  on them is lexicographic `String` order, which we use as-is.
* Face embeddings (numpy `float64` vectors) are modelled as `List ℚ` for the
  arithmetic of distances and averaging; the byte-level persistence of
  `tobytes`/`frombuffer` is modelled separately on 64-bit patterns.
-/

namespace Attendance

/-- Row of the `People` table (`id, name, face_encoding, registration_date`);
the encoding is nullable (`BLOB` column), here carried as the decoded vector. -/
structure Person where
  id : Nat
  name : String
  faceEncoding : Option (List ℚ)
  registrationDate : String
deriving DecidableEq

/-- Row of the `Sessions` table (`id, name, subject, start_time, duration`);
`startTime` is seconds of day, `duration` is in minutes (default 10). -/
structure Session where
  id : Nat
  name : String
  subject : String
  startTime : Nat
  duration : Nat
deriving DecidableEq

/-- Row of the `Attendance` table
(`id, person_id, session_id, date, time, status`). -/
structure AttendanceRecord where
  id : Nat
  personId : Nat
  sessionId : Nat
  date : String
  time : Nat
  status : String
deriving DecidableEq

/-- The sqlite database: the three tables created by `create_tables`. -/
structure DB where
  people : List Person
  sessions : List Session
  attendance : List AttendanceRecord
deriving DecidableEq

/-- The `SELECT id, start_time, duration FROM Sessions WHERE name = ? AND
subject = ?` lookup followed by `fetchone()`: the first session whose
(name, subject) composite key matches. -/
def find_session (sessions : List Session) (name subject : String) : Option Session :=
  sessions.find? (fun s => s.name == name && s.subject == subject)

/-- Predicate of the duplicate check `SELECT id FROM Attendance WHERE
person_id = ? AND session_id = ? AND date = ?`. -/
def matchesTriple (pid sid : Nat) (date : String) (a : AttendanceRecord) : Bool :=
  a.personId == pid && a.sessionId == sid && a.date == date

/-- Autoincrement id for a fresh `Attendance` row. -/
def nextAttendanceId (db : DB) : Nat :=
  (db.attendance.map (fun a => a.id)).foldr max 0 + 1

/-- Model of `AttendanceDatabase.mark_attendance(person_id, session_name, subject)`.
The current date and time-of-day (obtained from `datetime.now()` in the
source) are passed in explicitly.  Returns the boolean result together with
the database after the call. -/
def mark_attendance (db : DB) (personId : Nat) (sessionName subject : String)
    (date : String) (timeNow : Nat) : Bool × DB :=
  match find_session db.sessions sessionName subject with
  | none => (false, db)
  | some s =>
    if (timeNow : Int) - (s.startTime : Int) > (s.duration : Int) * 60 then
      (false, db)
    else if (db.attendance.find? (matchesTriple personId s.id date)).isSome then
      (false, db)
    else
      (true, { db with attendance := db.attendance ++
        [{ id := nextAttendanceId db, personId := personId, sessionId := s.id,
           date := date, time := timeNow, status := "Present" }] })

/-- Number of ledger records for a given (identity, session, date) triple. -/
def countTriple (db : DB) (pid sid : Nat) (date : String) : Nat :=
  (db.attendance.filter (matchesTriple pid sid date)).length

/-! ### Matcher (`take_attendance` lines 186-192) -/

/-- Squared Euclidean distance between two equal-length vectors; the source's
`face_recognition.face_distance` computes `np.linalg.norm(known - query)`,
whose square this is.  `np.argmin` and the `< 0.6` test are phrased over
squared distances below, which is equivalent since `Real.sqrt` is strictly
monotone on nonnegatives (proved in the theorems). -/
def distSq (q v : List ℚ) : ℚ :=
  (List.zipWith (fun a b => (a - b) ^ 2) q v).sum

/-- The true Euclidean distance, used in specification statements. -/
noncomputable def euclidDist (q v : List ℚ) : ℝ :=
  Real.sqrt (distSq q v)

/-- Model of `np.argmin` over a list of values: index and value of the first minimum
(numpy returns the lowest index when several entries tie). -/
def argminIdx : List ℚ → Option (Nat × ℚ)
  | [] => none
  | d :: ds =>
    match argminIdx ds with
    | none => some (0, d)
    | some (j, m) => if d ≤ m then some (0, d) else some (j + 1, m)

/-- The matcher `find_best_match(query, known)`: `none` when the store is empty (the
source's `len(distances) > 0` guard), otherwise the index of the closest
known embedding together with its squared distance. -/
def find_best_match (known : List (List ℚ)) (q : List ℚ) : Option (Nat × ℚ) :=
  argminIdx (known.map (fun v => distSq q v))

/-- The acceptance threshold `distances[best_match] < 0.6` of the source,
expressed on squared distances: `d² < 0.36 = 9/25`. -/
def thresholdAccept (d2 : ℚ) : Bool :=
  d2 < 9 / 25

/-- One face of the matching step of `take_attendance` (lines 186-192), up to
and including the `self.known_face_names[best_match]` lookup.
`none` models a raised `IndexError` (index out of the parallel names list);
`some none` means the face is not used for attendance (empty store, or the
best distance is not below the threshold); `some (some (id, name))` is a
usable match. -/
def match_face (encs : List (List ℚ)) (names : List (Nat × String))
    (q : List ℚ) : Option (Option (Nat × String)) :=
  match find_best_match encs q with
  | none => some none
  | some (i, d2) =>
    if thresholdAccept d2 then (names[i]?).map (fun p => some p)
    else some none

/-! ### Registration (`register_person`, `register_new_person`) -/

/-- Autoincrement id for a fresh `People` row. -/
def nextPersonId (db : DB) : Nat :=
  (db.people.map (fun p => p.id)).foldr max 0 + 1

/-- Model of `AttendanceDatabase.register_person(name, face_encoding)`: inserts a new
`People` row; the registration date comes from the clock. -/
def register_person (db : DB) (name : String) (enc : Option (List ℚ))
    (regDate : String) : DB :=
  { db with people := db.people ++
      [{ id := nextPersonId db, name := name, faceEncoding := enc,
         registrationDate := regDate }] }

/-- Model of `np.mean(encodings, axis=0)`: component-wise mean of a list of vectors. -/
def npMean (xs : List (List ℚ)) : List ℚ :=
  match xs with
  | [] => []
  | v :: rest =>
    (rest.foldl (List.zipWith (· + ·)) v).map (fun c => c / (xs.length : ℚ))

/-- In-memory state of `AttendanceSystem`: the database plus the two parallel
caches `known_face_encodings` and `known_face_names`. -/
structure SystemState where
  db : DB
  knownFaceEncodings : List (List ℚ)
  knownFaceNames : List (Nat × String)
deriving DecidableEq

/-- Model of `AttendanceSystem.register_new_person(name)`, with the captured sample
encodings passed in.  When at least one face was captured, the averaged
encoding is persisted via `register_person` and appended to
`known_face_encodings`; the source appends nothing to `known_face_names`
(line 163 appends only to `self.known_face_encodings`). -/
def register_new_person (st : SystemState) (name : String)
    (samples : List (List ℚ)) (regDate : String) : SystemState :=
  match samples with
  | [] => st
  | _ :: _ =>
    let avg := npMean samples
    { db := register_person st.db name (some avg) regDate,
      knownFaceEncodings := st.knownFaceEncodings ++ [avg],
      knownFaceNames := st.knownFaceNames }

/-- Processing of one detected face inside the `take_attendance` loop
(lines 186-199): match it, and on a usable match for a person not yet in the
in-run `marked_people` set, call `mark_attendance`.  `none` models the
`IndexError` raised by `self.known_face_names[best_match]` when the caches
are out of step; otherwise the updated database and marked set are returned. -/
def process_face (st : SystemState) (marked : List Nat)
    (sessionName subject date : String) (timeNow : Nat) (q : List ℚ) :
    Option (DB × List Nat) :=
  match match_face st.knownFaceEncodings st.knownFaceNames q with
  | none => none
  | some none => some (st.db, marked)
  | some (some (pid, _)) =>
    if pid ∈ marked then some (st.db, marked)
    else
      match mark_attendance st.db pid sessionName subject date timeNow with
      | (true, db1) => some (db1, pid :: marked)
      | (false, db1) => some (db1, marked)

/-! ### Attendance report (`get_attendance_report`) -/

/-- One row of the report `SELECT p.name, s.name AS session, s.subject,
a.date, a.time, a.status`. -/
structure ReportRow where
  name : String
  session : String
  subject : String
  date : String
  time : Nat
  status : String
deriving DecidableEq

/-- The `ORDER BY a.date DESC, a.time DESC` relation: later dates first, and
within a date later times first. -/
def reportLE (r1 r2 : ReportRow) : Prop :=
  r2.date < r1.date ∨ (r1.date = r2.date ∧ r2.time ≤ r1.time)

instance : DecidableRel reportLE :=
  fun _ _ => inferInstanceAs (Decidable (_ ∨ _))

instance : IsTotal ReportRow reportLE where
  total r1 r2 := by
    rcases lt_trichotomy r1.date r2.date with h | h | h
    · exact Or.inr (Or.inl h)
    · rcases le_total r2.time r1.time with ht | ht
      · exact Or.inl (Or.inr ⟨h, ht⟩)
      · exact Or.inr (Or.inr ⟨h.symm, ht⟩)
    · exact Or.inl (Or.inl h)

instance : IsTrans ReportRow reportLE where
  trans r1 r2 r3 h12 h23 := by
    rcases h12 with h12 | ⟨e12, t12⟩
    · rcases h23 with h23 | ⟨e23, _⟩
      · exact Or.inl (h23.trans h12)
      · exact Or.inl (e23 ▸ h12)
    · rcases h23 with h23 | ⟨e23, t23⟩
      · exact Or.inl (e12 ▸ h23)
      · exact Or.inr ⟨e12.trans e23, t23.trans t12⟩

/-- The unsorted join `FROM Attendance a JOIN People p ON a.person_id = p.id
JOIN Sessions s ON a.session_id = s.id`. -/
def reportRows (db : DB) : List ReportRow :=
  db.attendance.flatMap (fun a =>
    (db.people.filter (fun p => p.id == a.personId)).flatMap (fun p =>
      (db.sessions.filter (fun s => s.id == a.sessionId)).map (fun s =>
        { name := p.name, session := s.name, subject := s.subject,
          date := a.date, time := a.time, status := a.status })))

/-- Model of `AttendanceDatabase.get_attendance_report()`: the joined rows ordered by
date descending, then time descending.  A pure read: it takes the database
and returns a list of rows, leaving the database untouched. -/
def get_attendance_report (db : DB) : List ReportRow :=
  List.insertionSort reportLE (reportRows db)

/-! ### Byte-level persistence of embeddings
(`face_encoding.tobytes()` on insert, `np.frombuffer(..., dtype=np.float64)`
on load).  Each `float64` component is represented by its 64-bit pattern, a
`Nat` below `2 ^ 64`; `tobytes` lays the components out as 8 bytes each
(little-endian, numpy's native order here), and `frombuffer` re-groups them. -/

/-- Little-endian byte decomposition of a machine word: `w` bytes. -/
def natToBytesLE : Nat → Nat → List Nat
  | 0, _ => []
  | w + 1, x => x % 256 :: natToBytesLE w (x / 256)

/-- Little-endian byte recomposition. -/
def bytesToNatLE (bs : List Nat) : Nat :=
  bs.foldr (fun b acc => b + 256 * acc) 0

/-- Model of `numpy.ndarray.tobytes` on a `float64` vector: concatenation of the
8-byte encodings of the components' bit patterns. -/
def npTobytes : List Nat → List Nat
  | [] => []
  | x :: v => natToBytesLE 8 x ++ npTobytes v

/-- Model of `np.frombuffer(buf, dtype=np.float64)`: regroup the buffer into 8-byte
words.  (On a buffer whose length is not a multiple of 8 numpy raises; the
model keeps the complete 8-byte groups, a case that never arises for buffers
written by `tobytes`.) -/
def npFrombuffer : List Nat → List Nat
  | b0 :: b1 :: b2 :: b3 :: b4 :: b5 :: b6 :: b7 :: rest =>
    bytesToNatLE [b0, b1, b2, b3, b4, b5, b6, b7] :: npFrombuffer rest
  | _ => []

/-- Row of the `People` table at the persistence level: the `face_encoding`
column holds the raw `BLOB` bytes, as written by `register_person`. -/
structure PersonRow where
  id : Nat
  name : String
  faceEncoding : Option (List Nat)
  registrationDate : String
deriving DecidableEq

/-- The operation `register_person` seen at the byte level: the embedding is serialized
with `tobytes` before the `INSERT` (line 51 of the source). -/
def register_person_bytes (people : List PersonRow) (name : String)
    (enc : Option (List Nat)) (regDate : String) : List PersonRow :=
  people ++ [{ id := (people.map (fun p => p.id)).foldr max 0 + 1,
               name := name, faceEncoding := enc.map npTobytes,
               registrationDate := regDate }]

/-- Model of `AttendanceSystem.load_known_faces()`: every person with a non-null
encoding contributes `np.frombuffer(encoding, dtype=np.float64)` to the
encodings list and `(id, name)` to the parallel names list; people with a
null encoding are skipped. -/
def load_known_faces (people : List PersonRow) :
    List (List Nat) × List (Nat × String) :=
  (people.filterMap (fun p => p.faceEncoding.map npFrombuffer),
   people.filterMap (fun p => p.faceEncoding.map (fun _ => (p.id, p.name))))

/-! ## Helper lemmas -/

theorem distSq_nonneg (q v : List ℚ) : 0 ≤ distSq q v := by
  induction q generalizing v with
  | nil => simp [distSq]
  | cons a q ih =>
    cases v with
    | nil => simp [distSq]
    | cons b v =>
      have h1 : (0 : ℚ) ≤ (a - b) ^ 2 := sq_nonneg _
      have h2 := ih v
      simp only [distSq, List.zipWith_cons_cons, List.sum_cons] at *
      linarith

theorem argminIdx_eq_none {l : List ℚ} : argminIdx l = none ↔ l = [] := by
  cases l with
  | nil => simp [argminIdx]
  | cons d ds =>
    cases hds : argminIdx ds with
    | none => simp [argminIdx, hds]
    | some jm =>
      obtain ⟨j, m⟩ := jm
      simp only [argminIdx, hds]
      split <;> simp

theorem argminIdx_spec {l : List ℚ} {i : Nat} {m : ℚ}
    (h : argminIdx l = some (i, m)) :
    l[i]? = some m ∧ (∀ (k : Nat) (x : ℚ), l[k]? = some x → m ≤ x) ∧
      ∀ (k : Nat) (x : ℚ), k < i → l[k]? = some x → m < x := by
  induction l generalizing i m with
  | nil => simp [argminIdx] at h
  | cons d ds ih =>
    cases hds : argminIdx ds with
    | none =>
      have hnil : ds = [] := argminIdx_eq_none.mp hds
      subst hnil
      simp only [argminIdx] at h
      obtain ⟨rfl, rfl⟩ : 0 = i ∧ d = m := by simpa using h
      refine ⟨rfl, ?_, ?_⟩
      · intro k x hk
        cases k with
        | zero =>
          simp only [List.getElem?_cons_zero, Option.some.injEq] at hk
          exact le_of_eq hk
        | succ k => simp at hk
      · intro k x hk
        omega
    | some jm =>
      obtain ⟨j, m'⟩ := jm
      simp only [argminIdx, hds] at h
      obtain ⟨hget, hle, hlt⟩ := ih hds
      by_cases hdm : d ≤ m'
      · rw [if_pos hdm] at h
        obtain ⟨rfl, rfl⟩ : 0 = i ∧ d = m := by simpa using h
        refine ⟨by simp, ?_, ?_⟩
        · intro k x hk
          cases k with
          | zero =>
            simp only [List.getElem?_cons_zero, Option.some.injEq] at hk
            exact le_of_eq hk
          | succ k =>
            simp only [List.getElem?_cons_succ] at hk
            exact le_trans hdm (hle k x hk)
        · intro k x hk
          omega
      · rw [if_neg hdm] at h
        push_neg at hdm
        obtain ⟨rfl, rfl⟩ : j + 1 = i ∧ m' = m := by simpa using h
        refine ⟨by simpa using hget, ?_, ?_⟩
        · intro k x hk
          cases k with
          | zero =>
            simp only [List.getElem?_cons_zero, Option.some.injEq] at hk
            exact le_of_lt (hk ▸ hdm)
          | succ k =>
            simp only [List.getElem?_cons_succ] at hk
            exact hle k x hk
        · intro k x hki hk
          cases k with
          | zero =>
            simp only [List.getElem?_cons_zero, Option.some.injEq] at hk
            exact hk ▸ hdm
          | succ k =>
            simp only [List.getElem?_cons_succ] at hk
            exact hlt k x (by omega) hk

/-! ## Claims -/

/-- C3: for every non-empty list of known embeddings and every query, the
matcher selects an index attaining the minimum Euclidean distance to the
query, and every index strictly below the selected one is at strictly larger
distance (ties are broken towards the lowest index). -/
theorem find_best_match_min (E : List (List ℚ)) (q : List ℚ) (hE : E ≠ []) :
    ∃ (i : Nat) (d2 : ℚ) (vi : List ℚ),
      find_best_match E q = some (i, d2) ∧ E[i]? = some vi ∧
      distSq q vi = d2 ∧
      (∀ (j : Nat) (vj : List ℚ), E[j]? = some vj →
        euclidDist q vi ≤ euclidDist q vj) ∧
      ∀ (j : Nat) (vj : List ℚ), j < i → E[j]? = some vj →
        euclidDist q vi < euclidDist q vj := by
  have hl : E.map (fun v => distSq q v) ≠ [] := by simpa using hE
  obtain ⟨p, hp⟩ := Option.ne_none_iff_exists'.mp
    (fun hn => hl (argminIdx_eq_none.mp hn))
  obtain ⟨i, m⟩ := p
  obtain ⟨hget, hle, hlt⟩ := argminIdx_spec hp
  rw [List.getElem?_map] at hget
  obtain ⟨vi, hvi, hdvi⟩ : ∃ vi, E[i]? = some vi ∧ distSq q vi = m := by
    cases hEi : E[i]? with
    | none => rw [hEi] at hget; simp at hget
    | some v => rw [hEi] at hget; exact ⟨v, rfl, by simpa using hget⟩
  refine ⟨i, m, vi, hp, hvi, hdvi, ?_, ?_⟩
  · intro j vj hj
    have hj' : (E.map (fun v => distSq q v))[j]? = some (distSq q vj) := by
      rw [List.getElem?_map, hj]; rfl
    have := hle j _ hj'
    exact Real.sqrt_le_sqrt (by rw [hdvi]; exact_mod_cast this)
  · intro j vj hji hj
    have hj' : (E.map (fun v => distSq q v))[j]? = some (distSq q vj) := by
      rw [List.getElem?_map, hj]; rfl
    have := hlt j _ hji hj'
    refine Real.sqrt_lt_sqrt (by exact_mod_cast distSq_nonneg q vi) ?_
    rw [hdvi]; exact_mod_cast this

/-- Witness for C3 at a concrete store and query: the two trailing vectors
tie at the minimal distance and the matcher settles on index 1, the lower. -/
theorem find_best_match_min_witness :
    ∃ (i : Nat) (d2 : ℚ) (vi : List ℚ),
      find_best_match [[(1 : ℚ)], [0], [0]] [0] = some (i, d2) ∧
      [[(1 : ℚ)], [0], [0]][i]? = some vi ∧ distSq [0] vi = d2 ∧
      (∀ (j : Nat) (vj : List ℚ), [[(1 : ℚ)], [0], [0]][j]? = some vj →
        euclidDist [0] vi ≤ euclidDist [0] vj) ∧
      ∀ (j : Nat) (vj : List ℚ), j < i → [[(1 : ℚ)], [0], [0]][j]? = some vj →
        euclidDist [0] vi < euclidDist [0] vj :=
  find_best_match_min _ _ (List.cons_ne_nil _ _)

theorem find_best_match_d2_nonneg {E : List (List ℚ)} {q : List ℚ} {i : Nat}
    {d2 : ℚ} (h : find_best_match E q = some (i, d2)) : 0 ≤ d2 := by
  obtain ⟨hget, -, -⟩ := argminIdx_spec h
  rw [List.getElem?_map] at hget
  cases hEi : E[i]? with
  | none => rw [hEi] at hget; simp at hget
  | some v =>
    rw [hEi] at hget
    have hv : distSq q v = d2 := by simpa using hget
    exact hv ▸ distSq_nonneg q v

/-- C4: the matcher's acceptance test is a strict comparison against the
fixed threshold 0.6: a best-match Euclidean distance of exactly 0.6 is
rejected (the face is not used for attendance), while a best-match distance
strictly below 0.6 is accepted and the match proceeds to name resolution. -/
theorem threshold_boundary (encs : List (List ℚ)) (names : List (Nat × String))
    (q : List ℚ) (i : Nat) (d2 : ℚ)
    (h : find_best_match encs q = some (i, d2)) :
    (Real.sqrt (d2 : ℝ) = 3 / 5 → match_face encs names q = some none) ∧
    (Real.sqrt (d2 : ℝ) < 3 / 5 →
      match_face encs names q = (names[i]?).map (fun p => some p)) := by
  have hd2 : 0 ≤ d2 := find_best_match_d2_nonneg h
  constructor
  · intro hsq
    have hcast : (d2 : ℝ) = (3 / 5 : ℝ) ^ 2 := by
      rw [← Real.sq_sqrt (show (0 : ℝ) ≤ (d2 : ℝ) by exact_mod_cast hd2), hsq]
    have hq : d2 = 9 / 25 := by
      have h925 : (d2 : ℝ) = ((9 / 25 : ℚ) : ℝ) := by rw [hcast]; norm_num
      exact_mod_cast h925
    have hacc : thresholdAccept d2 = false := by
      simp [thresholdAccept, hq]
    simp [match_face, h, hacc]
  · intro hsq
    have hlt : (d2 : ℝ) < 9 / 25 := by
      have := (Real.sqrt_lt' (show (0 : ℝ) < 3 / 5 by norm_num)).mp hsq
      nlinarith
    have hq : d2 < 9 / 25 := by
      have h925 : (d2 : ℝ) < ((9 / 25 : ℚ) : ℝ) := by push_cast; linarith
      exact_mod_cast h925
    have hacc : thresholdAccept d2 = true := by
      simp [thresholdAccept, hq]
    simp [match_face, h, hacc]

/-- Witness for C4: with a single known embedding at Euclidean distance
exactly 0.6 from the query the face is rejected; at distance 0.599999 it is
accepted and resolves to the stored (id, name). -/
theorem threshold_boundary_witness :
    match_face [[(3 : ℚ) / 5]] [] [0] = some none ∧
    match_face [[(599999 : ℚ) / 1000000]] [(1, "a")] [0] = some (some (1, "a")) := by
  constructor
  · refine (threshold_boundary [[(3 : ℚ) / 5]] [] [0] 0 (9 / 25) ?_).1 ?_
    · norm_num [find_best_match, argminIdx, distSq]
    · rw [show (((9 : ℚ) / 25 : ℚ) : ℝ) = (3 / 5 : ℝ) ^ 2 by norm_num]
      exact Real.sqrt_sq (by norm_num)
  · have h2 := (threshold_boundary [[(599999 : ℚ) / 1000000]] [(1, "a")] [0] 0
      ((599999 / 1000000 : ℚ) ^ 2)
      (by norm_num [find_best_match, argminIdx, distSq])).2 ?_
    · simpa using h2
    · rw [show ((((599999 : ℚ) / 1000000) ^ 2 : ℚ) : ℝ) =
        ((599999 : ℝ) / 1000000) ^ 2 by push_cast; ring]
      rw [Real.sqrt_sq (by norm_num)]
      norm_num

/-- C6: matching against an empty embedding store is safe: the matcher
deterministically reports no usable match (it does not error), and the
per-face processing step leaves the database and the marked set unchanged,
so no attendance mark is attempted. -/
theorem empty_store_safety (db : DB) (names : List (Nat × String))
    (marked : List Nat) (sessionName subject date : String) (timeNow : Nat)
    (q : List ℚ) :
    match_face [] names q = some none ∧
    process_face ⟨db, [], names⟩ marked sessionName subject date timeNow q =
      some (db, marked) := by
  constructor
  · rfl
  · rfl

/-- Database of the C5 scenario: one identity already registered with a
stored embedding. -/
def dbBefore : DB :=
  { people := [{ id := 1, name := "alice", faceEncoding := some [0],
                 registrationDate := "2024-01-01" }],
    sessions := [], attendance := [] }

/-- In-memory system state for the C5 scenario after the startup
`load_known_faces`: the two caches are parallel. -/
def stBefore : SystemState :=
  { db := dbBefore, knownFaceEncodings := [[0]],
    knownFaceNames := [(1, "alice")] }

/-- System state after `register_new_person("bob")` captured one sample. -/
def stAfter : SystemState :=
  register_new_person stBefore "bob" [[10]] "2024-01-02"

/-- C5 (refuting the claim on the code as written): after a same-run
registration the new embedding sits in `known_face_encodings`, but no entry
was appended to `known_face_names` (the source's `register_new_person`
appends only to `self.known_face_encodings`).  A query embedding nearest to
the new embedding therefore selects index 1, the threshold test passes, and
the `self.known_face_names[best_match]` lookup goes out of bounds - an
`IndexError` (modelled as `none`) instead of a resolution to the new
identity's id and name. -/
theorem register_new_person_index_error :
    stAfter.knownFaceEncodings = [[0], [10]] ∧
    stAfter.knownFaceNames = [(1, "alice")] ∧
    find_best_match stAfter.knownFaceEncodings [10] = some (1, 0) ∧
    match_face stAfter.knownFaceEncodings stAfter.knownFaceNames [10] = none := by
  have henc : stAfter.knownFaceEncodings = [[0], [10]] := by
    norm_num [stAfter, stBefore, register_new_person, npMean]
  have hnames : stAfter.knownFaceNames = [(1, "alice")] := by
    norm_num [stAfter, stBefore, register_new_person]
  have hbest : find_best_match [[(0 : ℚ)], [10]] [10] = some (1, 0) := by
    norm_num [find_best_match, argminIdx, distSq]
  refine ⟨henc, hnames, by rw [henc]; exact hbest, ?_⟩
  rw [henc, hnames]
  norm_num [match_face, hbest, thresholdAccept]

/-- C7: `mark_attendance` resolves the session by the (session_name, subject)
composite key; when no session in the registry carries that pair, the call is
rejected and the database is unchanged, so no attendance record is written. -/
theorem session_not_found (db : DB) (personId : Nat)
    (sessionName subject date : String) (timeNow : Nat)
    (h : find_session db.sessions sessionName subject = none) :
    mark_attendance db personId sessionName subject date timeNow = (false, db) ∧
    ∀ s ∈ db.sessions, ¬(s.name = sessionName ∧ s.subject = subject) := by
  constructor
  · simp [mark_attendance, h]
  · intro s hs
    have hnp := List.find?_eq_none.mp h s hs
    simpa using hnp

/-- Shared concrete database for the `mark_attendance` witnesses: one
session "s1"/"math" started at second 100 with the default duration 10. -/
def dbW : DB :=
  { people := [],
    sessions := [{ id := 1, name := "s1", subject := "math", startTime := 100,
                   duration := 10 }],
    attendance := [] }

/-- Witness for C7: marking against subject "phys", for which no session
exists, is rejected and writes nothing. -/
theorem session_not_found_witness :
    mark_attendance dbW 1 "s1" "phys" "2024-01-01" 150 = (false, dbW) ∧
    ∀ s ∈ dbW.sessions, ¬(s.name = "s1" ∧ s.subject = "phys") :=
  session_not_found dbW 1 "s1" "phys" "2024-01-01" 150 (by decide)

/-- C2: for a session of duration 10 minutes started at `startTime`, a mark
attempt 9 minutes 59 seconds later (599 s elapsed, not exceeding the window)
succeeds when no duplicate exists, and an attempt 10 minutes 1 second later
(601 s elapsed) is rejected with the database unchanged. -/
theorem window_enforcement (db : DB) (personId : Nat)
    (sessionName subject date : String) (s : Session)
    (hs : find_session db.sessions sessionName subject = some s)
    (hdur : s.duration = 10)
    (hnodup : db.attendance.find? (matchesTriple personId s.id date) = none) :
    (mark_attendance db personId sessionName subject date (s.startTime + 599)).1
      = true ∧
    mark_attendance db personId sessionName subject date (s.startTime + 601) =
      (false, db) := by
  constructor
  · norm_num [mark_attendance, hs, hnodup, hdur]
  · norm_num [mark_attendance, hs, hnodup, hdur]

/-- Witness for C2 on the concrete database `dbW` (session start 100,
duration 10): marking at 699 succeeds, marking at 701 is rejected. -/
theorem window_enforcement_witness :
    (mark_attendance dbW 1 "s1" "math" "2024-01-01" (100 + 599)).1 = true ∧
    mark_attendance dbW 1 "s1" "math" "2024-01-01" (100 + 601) = (false, dbW) :=
  window_enforcement dbW 1 "s1" "math" "2024-01-01"
    { id := 1, name := "s1", subject := "math", startTime := 100, duration := 10 }
    (by decide) rfl (by decide)

/-- C1: when a `mark_attendance` call succeeds, the ledger afterwards holds
exactly one record for the resolved (identity, session, date) triple, and
every further `mark_attendance` call for the same identity, session key and
date - at any clock time - is rejected and leaves the database unchanged, so
at most one record for the triple ever exists. -/
theorem duplicate_prevention (db : DB) (personId : Nat)
    (sessionName subject date : String) (t1 : Nat)
    (h : (mark_attendance db personId sessionName subject date t1).1 = true) :
    ∃ s, find_session db.sessions sessionName subject = some s ∧
      countTriple (mark_attendance db personId sessionName subject date t1).2
        personId s.id date = 1 ∧
      ∀ t2,
        mark_attendance (mark_attendance db personId sessionName subject date t1).2
            personId sessionName subject date t2 =
          (false, (mark_attendance db personId sessionName subject date t1).2) := by
  cases hs : find_session db.sessions sessionName subject with
  | none => simp [mark_attendance, hs] at h
  | some s =>
    refine ⟨s, rfl, ?_⟩
    by_cases hwin : (t1 : Int) - (s.startTime : Int) > (s.duration : Int) * 60
    · simp [mark_attendance, hs, hwin] at h
    · by_cases hdup : (db.attendance.find? (matchesTriple personId s.id date)).isSome
      · simp [mark_attendance, hs, hwin, hdup] at h
      · set newRec : AttendanceRecord :=
          { id := nextAttendanceId db, personId := personId,
            sessionId := s.id, date := date, time := t1,
            status := "Present" } with hnewRec
        have hmark : mark_attendance db personId sessionName subject date t1 =
            (true, { db with attendance := db.attendance ++ [newRec] }) := by
          simp [mark_attendance, hs, hwin, hdup, hnewRec]
        have hnone : db.attendance.find? (matchesTriple personId s.id date) =
            none := Option.not_isSome_iff_eq_none.mp hdup
        have hall := List.find?_eq_none.mp hnone
        have hpn : matchesTriple personId s.id date newRec = true := by
          simp [hnewRec, matchesTriple]
        constructor
        · rw [hmark]
          unfold countTriple
          rw [List.filter_append, List.filter_eq_nil_iff.mpr hall]
          simp [hpn]
        · intro t2
          rw [hmark]
          have hdup2 : ((db.attendance ++ [newRec]).find?
              (matchesTriple personId s.id date)).isSome = true :=
            List.find?_isSome.mpr
              ⟨newRec, List.mem_append_right _ (List.mem_singleton_self _), hpn⟩
          by_cases hwin2 : (t2 : Int) - (s.startTime : Int) >
            (s.duration : Int) * 60
          · simp [mark_attendance, hs, hwin2]
          · simp [mark_attendance, hs, hwin2, hdup2]
            exact fun _ => hpn

/-- Witness for C1 on the concrete database `dbW`: a first successful mark
at time 699 yields exactly one ledger record for the triple, and any second
attempt is rejected without writing. -/
theorem duplicate_prevention_witness :
    ∃ s, find_session dbW.sessions "s1" "math" = some s ∧
      countTriple (mark_attendance dbW 1 "s1" "math" "2024-01-01" 699).2
        1 s.id "2024-01-01" = 1 ∧
      ∀ t2,
        mark_attendance (mark_attendance dbW 1 "s1" "math" "2024-01-01" 699).2
            1 "s1" "math" "2024-01-01" t2 =
          (false, (mark_attendance dbW 1 "s1" "math" "2024-01-01" 699).2) :=
  duplicate_prevention dbW 1 "s1" "math" "2024-01-01" 699 (by decide)

/-- C8: the attendance report is a pure read - a function from the database
to a list of rows, leaving the database untouched - whose content is exactly
the join of the Attendance records with people's names and sessions'
(name, subject), and whose order is by date descending, then by time
descending. -/
theorem report_sorted (db : DB) :
    List.Perm (get_attendance_report db) (reportRows db) ∧
    List.Sorted reportLE (get_attendance_report db) :=
  ⟨List.perm_insertionSort reportLE (reportRows db),
   List.sorted_insertionSort reportLE (reportRows db)⟩

theorem getD_zipAdd (v u : List ℚ) (j : Nat) (hj : j < v.length)
    (hlen : v.length = u.length) :
    (List.zipWith (· + ·) v u).getD j 0 = v.getD j 0 + u.getD j 0 := by
  induction v generalizing u j with
  | nil => simp at hj
  | cons a v ih =>
    cases u with
    | nil => simp at hlen
    | cons b u =>
      cases j with
      | zero => simp
      | succ j =>
        simp only [List.zipWith_cons_cons, List.getD_cons_succ]
        exact ih u j (by simpa using hj) (by simpa using hlen)

theorem foldl_zipAdd_length (rest : List (List ℚ)) (v : List ℚ) (n : Nat)
    (hv : v.length = n) (hrest : ∀ u ∈ rest, u.length = n) :
    (rest.foldl (List.zipWith (· + ·)) v).length = n := by
  induction rest generalizing v with
  | nil => simpa using hv
  | cons u rest ih =>
    have hu : u.length = n := hrest u (by simp)
    rw [List.foldl_cons]
    exact ih _ (by rw [List.length_zipWith, hv, hu, Nat.min_self])
      (fun w hw => hrest w (by simp [hw]))

theorem foldl_zipAdd_getD (rest : List (List ℚ)) (v : List ℚ) (n j : Nat)
    (hv : v.length = n) (hrest : ∀ u ∈ rest, u.length = n) (hj : j < n) :
    (rest.foldl (List.zipWith (· + ·)) v).getD j 0 =
      v.getD j 0 + (rest.map (fun u => u.getD j 0)).sum := by
  induction rest generalizing v with
  | nil => simp
  | cons u rest ih =>
    have hu : u.length = n := hrest u (by simp)
    have hz : (List.zipWith (· + ·) v u).length = n := by
      rw [List.length_zipWith, hv, hu, Nat.min_self]
    rw [List.foldl_cons, ih (List.zipWith (· + ·) v u) hz
      (fun w hw => hrest w (by simp [hw]))]
    rw [getD_zipAdd v u j (by omega) (by omega)]
    rw [List.map_cons, List.sum_cons]
    ring

/-- C9: registering an identity from a non-empty list of equal-dimension
sample embeddings stores the component-wise mean of the samples as the
identity's single representative vector; a single-sample registration stores
that sample unchanged. -/
theorem registration_averaging (st : SystemState) (name regDate : String)
    (samples : List (List ℚ)) (n : Nat)
    (hne : samples ≠ []) (hdim : ∀ u ∈ samples, u.length = n) :
    (register_new_person st name samples regDate).db.people =
      st.db.people ++
        [{ id := nextPersonId st.db, name := name,
           faceEncoding := some (npMean samples),
           registrationDate := regDate }] ∧
    (npMean samples).length = n ∧
    (∀ j, j < n → (npMean samples).getD j 0 =
      (samples.map (fun u => u.getD j 0)).sum / (samples.length : ℚ)) ∧
    ∀ v, samples = [v] → npMean samples = v := by
  obtain ⟨v, rest, rfl⟩ : ∃ v rest, samples = v :: rest := by
    cases samples with
    | nil => exact absurd rfl hne
    | cons v rest => exact ⟨v, rest, rfl⟩
  have hv : v.length = n := hdim v (by simp)
  have hrest : ∀ u ∈ rest, u.length = n := fun u hu => hdim u (by simp [hu])
  have hflen : (rest.foldl (List.zipWith (· + ·)) v).length = n :=
    foldl_zipAdd_length rest v n hv hrest
  refine ⟨?_, ?_, ?_, ?_⟩
  · simp [register_new_person, register_person]
  · simp only [npMean, List.length_map]
    exact hflen
  · intro j hj
    have hj2 : j < (rest.foldl (List.zipWith (· + ·)) v).length := by omega
    have hj1 : j < ((rest.foldl (List.zipWith (· + ·)) v).map
        (fun c => c / (((v :: rest).length : Nat) : ℚ))).length := by
      simpa using hj2
    simp only [npMean]
    rw [List.getD_eq_getElem _ _ hj1, List.getElem_map,
      ← List.getD_eq_getElem _ (0 : ℚ) hj2]
    rw [foldl_zipAdd_getD rest v n j hv hrest hj]
    rw [List.map_cons, List.sum_cons]
  · intro w hw
    injection hw with h1 h2
    subst h1
    subst h2
    simp [npMean]

/-- A plain system state over `dbW` for the registration witness. -/
def stW : SystemState :=
  { db := dbW, knownFaceEncodings := [], knownFaceNames := [] }

/-- Witness for C9: registering "carol" from the two samples [1, 3] and
[3, 5] of dimension 2. -/
theorem registration_averaging_witness :
    (register_new_person stW "carol" [[(1 : ℚ), 3], [3, 5]] "2024-01-03").db.people =
      stW.db.people ++
        [{ id := nextPersonId stW.db, name := "carol",
           faceEncoding := some (npMean [[(1 : ℚ), 3], [3, 5]]),
           registrationDate := "2024-01-03" }] ∧
    (npMean [[(1 : ℚ), 3], [3, 5]]).length = 2 ∧
    (∀ j, j < 2 → (npMean [[(1 : ℚ), 3], [3, 5]]).getD j 0 =
      ([[(1 : ℚ), 3], [3, 5]].map (fun u => u.getD j 0)).sum /
        (([[(1 : ℚ), 3], [3, 5]].length : Nat) : ℚ)) ∧
    ∀ v, [[(1 : ℚ), 3], [3, 5]] = [v] → npMean [[(1 : ℚ), 3], [3, 5]] = v :=
  registration_averaging stW "carol" "2024-01-03" [[(1 : ℚ), 3], [3, 5]] 2
    (by decide) (by decide)

theorem natToBytesLE_length (w x : Nat) : (natToBytesLE w x).length = w := by
  induction w generalizing x with
  | zero => rfl
  | succ w ih => simp [natToBytesLE, ih]

theorem bytesToNatLE_natToBytesLE (w x : Nat) (h : x < 256 ^ w) :
    bytesToNatLE (natToBytesLE w x) = x := by
  induction w generalizing x with
  | zero =>
    simp only [natToBytesLE, bytesToNatLE, List.foldr_nil]
    omega
  | succ w ih =>
    have hdiv : x / 256 < 256 ^ w := by
      have hp : 256 ^ (w + 1) = 256 ^ w * 256 := pow_succ 256 w
      rw [Nat.div_lt_iff_lt_mul (by norm_num : 0 < 256)]
      omega
    have ih' := ih (x / 256) hdiv
    show x % 256 + 256 * bytesToNatLE (natToBytesLE w (x / 256)) = x
    rw [ih']
    omega

theorem npFrombuffer_npTobytes (v : List Nat) (hv : ∀ x ∈ v, x < 2 ^ 64) :
    npFrombuffer (npTobytes v) = v := by
  induction v with
  | nil => rfl
  | cons x v ih =>
    have hx : x < 256 ^ 8 := by
      have hb := hv x (by simp)
      norm_num at hb ⊢
      omega
    have ih' := ih (fun y hy => hv y (by simp [hy]))
    show bytesToNatLE (natToBytesLE 8 x) :: npFrombuffer (npTobytes v) = x :: v
    rw [ih', bytesToNatLE_natToBytesLE 8 x hx]

/-- C10: storing an embedding vector through `register_person` (serialized
to bytes with `tobytes`) and reading the `People` table back through
`load_known_faces` (deserialized from bytes as `float64` by `frombuffer`)
yields exactly the original vector, appended to the previously loaded
encodings in parallel with its (id, name) pair. -/
theorem embedding_roundtrip (people : List PersonRow) (name regDate : String)
    (v : List Nat) (hv : ∀ x ∈ v, x < 2 ^ 64) :
    load_known_faces (register_person_bytes people name (some v) regDate) =
      ((load_known_faces people).1 ++ [v],
       (load_known_faces people).2 ++
         [((people.map (fun p => p.id)).foldr max 0 + 1, name)]) := by
  unfold load_known_faces register_person_bytes
  simp [List.filterMap_append, npFrombuffer_npTobytes v hv]

/-- Witness for C10 at a concrete vector of three 64-bit patterns stored
into an empty `People` table. -/
theorem embedding_roundtrip_witness :
    load_known_faces (register_person_bytes [] "alice"
        (some [12345678901234567890, 3, 0]) "2024-01-01") =
      ([[12345678901234567890, 3, 0]], [(1, "alice")]) := by
  have h := embedding_roundtrip [] "alice" "2024-01-01"
    [12345678901234567890, 3, 0] (by decide)
  simpa using h

end Attendance
